/-
Verification of the servo-bus protocol, unit conversion, gait-phase tracker,
button debouncing and control-loop tick of the openduckrust runtime.

Each definition is a shallow embedding of the corresponding Rust item in
`src/runtime/src/` (file and function named in its doc comment).  Bytes are
modelled as `Nat` values below 256, `u16` arithmetic as `% 65536`, `i16`
values as `Int`, and `f64` state as `ℚ` (exact) or `ℝ` (where trigonometric
functions or π appear).
-/
import Mathlib

namespace OpenDuck

/-! ## Servo-bus protocol (src/runtime/src/motors.rs) -/

/-- Protocol constants from motors.rs: the two-byte header `[0xFF, 0xFF]`. -/
def HEADER : List Nat := [255, 255]

/-- `INST_WRITE` = 0x03. -/
def INST_WRITE : Nat := 0x03

/-- `INST_SYNC_WRITE` = 0x83. -/
def INST_SYNC_WRITE : Nat := 0x83

/-- `INST_SYNC_READ` = 0x82. -/
def INST_SYNC_READ : Nat := 0x82

/-- `compute_checksum` (motors.rs:376-379): sum the bytes into a `u16`
(wrapping, modelled by `% 65536`), bitwise-complement, truncate to `u8`. -/
def compute_checksum (data : List Nat) : Nat :=
  (65535 - (data.sum % 65536)) % 256

/-- A frame as every encoder in motors.rs builds it: header, body,
then `compute_checksum` of the body. -/
def mkFrame (body : List Nat) : List Nat :=
  HEADER ++ body ++ [compute_checksum body]

/-- The checksum rule applied to a received frame: at least the header plus
one byte, and the final byte equals `compute_checksum` of the bytes strictly
between the header and the checksum byte. -/
def validFrame (p : List Nat) : Bool :=
  decide (3 ≤ p.length) &&
    ((p.getLast?.getD 0) == compute_checksum ((p.drop 2).dropLast))

/-- Frame body of `write_register` (motors.rs:258-269):
`[id, length, INST_WRITE, addr] ++ data` with `length = data.len() + 3`
cast to `u8`. -/
def writeRegisterBody (id addr : Nat) (data : List Nat) : List Nat :=
  [id, (data.length + 3) % 256, INST_WRITE, addr] ++ data

/-- The full `write_register` packet (motors.rs:258-269). -/
def writeRegisterPacket (id addr : Nat) (data : List Nat) : List Nat :=
  mkFrame (writeRegisterBody id addr data)

/-- Little-endian `i16` encoding (`byteorder::LittleEndian::write_i16`):
two bytes of the value's two's-complement representation. -/
def encodeI16LE (v : Int) : List Nat :=
  [((v % 65536).toNat) % 256, ((v % 65536).toNat) / 256]

/-- Little-endian `i16` decoding (`byteorder::LittleEndian::read_i16`). -/
def decodeI16LE (lo hi : Nat) : Int :=
  let w := lo % 256 + 256 * (hi % 256)
  if w < 32768 then (w : Int) else (w : Int) - 65536

/-- Frame body of `sync_write_positions` (motors.rs:281-303):
broadcast id 0xFE, `length = ids.len()*(1+2) + 4` cast to `u8`,
`INST_SYNC_WRITE`, goal-position register 42, data length 2, then per device
its id followed by its little-endian `i16` position. -/
def syncWriteBody (ids : List Nat) (values : List Int) : List Nat :=
  [0xFE, (ids.length * 3 + 4) % 256, INST_SYNC_WRITE, 42, 2] ++
    ((ids.zip values).flatMap fun p => p.1 :: encodeI16LE p.2)

/-- The full `sync_write_positions` packet (motors.rs:281-303). -/
def syncWritePacket (ids : List Nat) (values : List Int) : List Nat :=
  mkFrame (syncWriteBody ids values)

/-- Frame body of the request built by `sync_read` (motors.rs:313-327):
broadcast id 0xFE, `length = ids.len() + 4` cast to `u8`, `INST_SYNC_READ`,
register address, data length, then the device id list. -/
def syncReadBody (ids : List Nat) (addr dataLen : Nat) : List Nat :=
  [0xFE, (ids.length + 4) % 256, INST_SYNC_READ, addr, dataLen] ++ ids

/-- The full `sync_read` request packet (motors.rs:313-327). -/
def syncReadPacket (ids : List Nat) (addr dataLen : Nat) : List Nat :=
  mkFrame (syncReadBody ids addr dataLen)

/-- The parse loop of `sync_read` (motors.rs:346-363): for each expected
device, if a complete `6 + dataLen`-byte sub-response does not fit below
`len` (the number of bytes actually read), push 0 and leave the cursor
unmoved; otherwise skip header/id/length/error (5 bytes), read a
little-endian `i16` from the data bytes, and advance past data and
checksum. -/
def syncReadLoop (dataLen len : Nat) (resp : List Nat) :
    Nat → Nat → List Int
  | 0, _ => []
  | count + 1, cursor =>
    if len < cursor + 6 + dataLen then
      0 :: syncReadLoop dataLen len resp count cursor
    else
      (if 2 ≤ dataLen then
        decodeI16LE (resp.getD (cursor + 5) 0) (resp.getD (cursor + 6) 0)
      else 0) :: syncReadLoop dataLen len resp count (cursor + 6 + dataLen)

/-- Receive side of `sync_read` (motors.rs:333-365): an empty read is a
communication error (`bail!`), otherwise each device's sub-response is
parsed by `syncReadLoop` starting at cursor 0.  No checksum is inspected. -/
def syncReadParse (n dataLen : Nat) (resp : List Nat) :
    Except String (List Int) :=
  if resp.length = 0 then .error "No response from servos"
  else .ok (syncReadLoop dataLen resp.length resp n 0)

/-! ### Checksum lemmas -/

theorem compute_checksum_eq (data : List Nat) :
    compute_checksum data = 255 - data.sum % 256 := by
  unfold compute_checksum
  omega

theorem sum_set (l : List Nat) (j b : Nat) (h : j < l.length) :
    (l.set j b).sum + l.getD j 0 = l.sum + b := by
  induction l generalizing j with
  | nil => simp at h
  | cons a t ih =>
    cases j with
    | zero => simp [List.getD]; omega
    | succ j =>
      have h' : j < t.length := by simpa using h
      have := ih j h'
      simp only [List.set_cons_succ, List.sum_cons, List.getD_cons_succ]
      omega

theorem compute_checksum_set_ne (body : List Nat) (j b' : Nat)
    (hj : j < body.length) (hb : body.getD j 0 < 256) (hb' : b' < 256)
    (hne : b' ≠ body.getD j 0) :
    compute_checksum (body.set j b') ≠ compute_checksum body := by
  rw [compute_checksum_eq, compute_checksum_eq]
  have h := sum_set body j b' hj
  omega

theorem mkFrame_eq (body : List Nat) :
    mkFrame body = 255 :: 255 :: (body ++ [compute_checksum body]) := rfl

theorem set_append_left (l₁ l₂ : List Nat) (j b : Nat) (h : j < l₁.length) :
    (l₁ ++ l₂).set j b = l₁.set j b ++ l₂ := by
  induction l₁ generalizing j with
  | nil => simp at h
  | cons a t ih =>
    cases j with
    | zero => simp
    | succ j =>
      have h' : j < t.length := by simpa using h
      simp [ih j h']

theorem set_append_length (l : List Nat) (c b : Nat) :
    (l ++ [c]).set l.length b = l ++ [b] := by
  induction l with
  | nil => rfl
  | cons a t ih => simp [ih]

theorem getD_lt_256 (l : List Nat) (h : ∀ b ∈ l, b < 256) (j : Nat) :
    l.getD j 0 < 256 := by
  induction l generalizing j with
  | nil => simp [List.getD]
  | cons a t ih =>
    cases j with
    | zero => exact h a (by simp)
    | succ j =>
      simp only [List.getD_cons_succ]
      exact ih (fun b hb => h b (by simp [hb])) j

theorem getD_frame (body : List Nat) (c j : Nat) (h : j < body.length) :
    (255 :: 255 :: (body ++ [c])).getD (j + 2) 0 = body.getD j 0 := by
  simp only [List.getD_cons_succ]
  induction body generalizing j with
  | nil => simp at h
  | cons a t ih =>
    cases j with
    | zero => simp
    | succ j =>
      have h' : j < t.length := by simpa using h
      simpa using ih j h'

theorem getD_frame_last (body : List Nat) (c : Nat) :
    (255 :: 255 :: (body ++ [c])).getD (body.length + 2) 0 = c := by
  simp only [List.getD_cons_succ]
  induction body with
  | nil => rfl
  | cons a t ih =>
    simp only [List.cons_append, List.length_cons, List.getD_cons_succ]
    exact ih

theorem validFrame_header (body : List Nat) (c : Nat) :
    validFrame (255 :: 255 :: (body ++ [c])) = (c == compute_checksum body) := by
  have h1 : (255 :: 255 :: (body ++ [c])).getLast?.getD 0 = c := by
    rw [show (255 :: 255 :: (body ++ [c])) = (255 :: 255 :: body) ++ [c] by simp]
    rw [List.getLast?_concat]
    rfl
  have h2 : ((255 :: 255 :: (body ++ [c])).drop 2).dropLast = body := by
    simp
  have h3 : 3 ≤ (255 :: 255 :: (body ++ [c])).length := by
    simp
  unfold validFrame
  rw [h1, h2]
  simp [h3]

/-- C1.  Checksum round-trip: every frame built by the encoder (device id,
length byte, instruction and parameter bytes, all valid bytes) validates
after `compute_checksum` of the bytes past the two-byte header is appended,
and flipping any single byte after the header to a different byte value
makes the validation fail. -/
theorem C1_checksum_roundtrip_and_flip (id lenB inst : Nat) (params : List Nat)
    (hid : id < 256) (hlen : lenB < 256) (hinst : inst < 256)
    (hp : ∀ b ∈ params, b < 256) :
    validFrame (mkFrame (id :: lenB :: inst :: params)) = true ∧
    ∀ i b', 2 ≤ i → i < (mkFrame (id :: lenB :: inst :: params)).length →
      b' < 256 → b' ≠ (mkFrame (id :: lenB :: inst :: params)).getD i 0 →
      validFrame ((mkFrame (id :: lenB :: inst :: params)).set i b') = false := by
  set body : List Nat := id :: lenB :: inst :: params with hbody
  have hbyte : ∀ j, body.getD j 0 < 256 := by
    intro j
    apply getD_lt_256
    intro b hb
    rw [hbody] at hb
    simp only [List.mem_cons] at hb
    rcases hb with rfl | rfl | rfl | hb
    · exact hid
    · exact hlen
    · exact hinst
    · exact hp b hb
  set c : Nat := compute_checksum body with hc
  constructor
  · rw [mkFrame_eq, validFrame_header]
    simp
  · intro i b' hi2 hilen hb' hne
    rw [mkFrame_eq] at hilen ⊢
    rw [mkFrame_eq] at hne
    obtain ⟨j, rfl⟩ : ∃ j, i = j + 2 := ⟨i - 2, by omega⟩
    have hjlen : j ≤ body.length := by
      simp only [List.length_cons, List.length_append, List.length_cons,
        List.length_nil] at hilen
      omega
    rcases lt_or_eq_of_le hjlen with hj | hj
    · -- flip inside the body
      have hset : (255 :: 255 :: (body ++ [c])).set (j + 2) b'
          = 255 :: 255 :: (body.set j b' ++ [c]) := by
        simp only [List.set_cons_succ]
        rw [set_append_left _ _ _ _ hj]
      rw [hset, validFrame_header]
      have hne' : b' ≠ body.getD j 0 := by
        rw [getD_frame body c j hj] at hne
        exact hne
      have := compute_checksum_set_ne body j b' hj (hbyte j) hb' hne'
      simp only [beq_eq_false_iff_ne, ne_eq]
      omega
    · -- flip of the checksum byte itself
      subst hj
      have hset : (255 :: 255 :: (body ++ [c])).set (body.length + 2) b'
          = 255 :: 255 :: (body ++ [b']) := by
        simp only [List.set_cons_succ]
        rw [set_append_length]
      rw [hset, validFrame_header]
      rw [getD_frame_last body c] at hne
      simp only [beq_eq_false_iff_ne, ne_eq]
      omega

/-- C1 witness: a concrete write frame (id 1, length 4, instruction 3,
parameters [40, 7]) validates, and flipping its instruction byte to 99
breaks validation. -/
theorem C1_checksum_roundtrip_and_flip_witness :
    validFrame (mkFrame (1 :: 4 :: 3 :: [40, 7])) = true ∧
      validFrame ((mkFrame (1 :: 4 :: 3 :: [40, 7])).set 4 99) = false :=
  ⟨(C1_checksum_roundtrip_and_flip 1 4 3 [40, 7] (by decide) (by decide)
      (by decide) (by decide)).1,
   (C1_checksum_roundtrip_and_flip 1 4 3 [40, 7] (by decide) (by decide)
      (by decide) (by decide)).2 4 99 (by decide) (by decide) (by decide)
      (by decide)⟩

/-! ### Length-byte facts (C4) -/

/-- The Length field of an emitted frame: byte index 3 (after the two
header bytes and the device-address byte). -/
def lengthByte (p : List Nat) : Nat := p.getD 3 0

theorem lengthByte_writeRegister (id addr : Nat) (data : List Nat) :
    lengthByte (writeRegisterPacket id addr data) = (data.length + 3) % 256 :=
  rfl

theorem lengthByte_syncWrite (ids : List Nat) (values : List Int) :
    lengthByte (syncWritePacket ids values) = (ids.length * 3 + 4) % 256 :=
  rfl

theorem lengthByte_syncRead (ids : List Nat) (addr dataLen : Nat) :
    lengthByte (syncReadPacket ids addr dataLen) = (ids.length + 4) % 256 :=
  rfl

/-- C4 counterexample: a single-register write of one payload byte emits
Length = 4, but the claim (register address plus payload = 2 parameter
bytes, plus 3) demands 5. -/
theorem C4_counterexample :
    lengthByte (writeRegisterPacket 1 40 [1]) = 4 ∧
      (1 + ([1] : List Nat).length) + 3 = 5 ∧ (4 : Nat) ≠ 5 := by
  decide

/-- C4 amended: in every frame the encoder emits, the Length byte equals
the number of parameter bytes plus 2 (not 3), where the parameter bytes
are the register address plus payload for a single-register write, and the
per-device id+payload list with its register address and data-length byte
for sync write/read. -/
theorem C4_length_field_amended :
    (∀ id addr : Nat, ∀ data : List Nat, data.length + 3 < 256 →
      lengthByte (writeRegisterPacket id addr data) = (1 + data.length) + 2) ∧
    (∀ ids : List Nat, ∀ values : List Int, ids.length * 3 + 4 < 256 →
      lengthByte (syncWritePacket ids values) = (ids.length * 3 + 2) + 2) ∧
    (∀ ids : List Nat, ∀ addr dataLen : Nat, ids.length + 4 < 256 →
      lengthByte (syncReadPacket ids addr dataLen) = (ids.length + 2) + 2) := by
  refine ⟨fun id addr data h => ?_, fun ids values h => ?_,
    fun ids addr dataLen h => ?_⟩
  · rw [lengthByte_writeRegister, Nat.mod_eq_of_lt h]
    omega
  · rw [lengthByte_syncWrite, Nat.mod_eq_of_lt h]
  · rw [lengthByte_syncRead, Nat.mod_eq_of_lt h]

/-- C4 amended, witness: concrete frames of each kind. -/
theorem C4_length_field_amended_witness :
    lengthByte (writeRegisterPacket 1 40 [7]) = (1 + 1) + 2 ∧
    lengthByte (syncWritePacket [20, 21] [100, 200]) = (2 * 3 + 2) + 2 ∧
    lengthByte (syncReadPacket [20, 21] 56 2) = (2 + 2) + 2 :=
  ⟨C4_length_field_amended.1 1 40 [7] (by decide),
   C4_length_field_amended.2.1 [20, 21] [100, 200] (by decide),
   C4_length_field_amended.2.2 [20, 21] 56 2 (by decide)⟩

/-! ### Receive-side parsing (C2, C5) -/

/-- C2 counterexample: a one-device response whose checksum byte (99) is
wrong — the checksum rule rejects the frame — is still parsed, and its data
bytes are returned as the value 5. -/
theorem C2_counterexample :
    validFrame [255, 255, 1, 4, 0, 5, 0, 99] = false ∧
      syncReadParse 1 2 [255, 255, 1, 4, 0, 5, 0, 99] = .ok [5] := by
  constructor
  · decide
  · rfl

theorem getD_set_ne (l : List Nat) (i j a : Nat) (h : i ≠ j) :
    (l.set i a).getD j 0 = l.getD j 0 := by
  induction l generalizing i j with
  | nil => rfl
  | cons x t ih =>
    cases i with
    | zero =>
      cases j with
      | zero => exact absurd rfl h
      | succ j => rfl
    | succ i =>
      cases j with
      | zero => rfl
      | succ j =>
        simp only [List.set_cons_succ, List.getD_cons_succ]
        exact ih i j (by omega)

/-- The checksum byte of device `j`'s sub-response (at offset
`j*(6+d) + 5 + d`) never coincides with a data byte the parse loop reads
(offsets `m*(6+d) + 5` and `m*(6+d) + 6`, read only when `2 ≤ d`). -/
theorem cksum_pos_ne_data (d m j : Nat) (hd : 2 ≤ d) :
    j * (6 + d) + 5 + d ≠ m * (6 + d) + 5 ∧
      j * (6 + d) + 5 + d ≠ m * (6 + d) + 6 := by
  rcases le_or_lt m j with h | h
  · have h1 : m * (6 + d) ≤ j * (6 + d) := Nat.mul_le_mul_right _ h
    omega
  · have h1 : (j + 1) * (6 + d) ≤ m * (6 + d) := Nat.mul_le_mul_right _ h
    have h2 : (j + 1) * (6 + d) = j * (6 + d) + (6 + d) := by ring
    omega

/-- The parse loop never looks at any sub-response's checksum byte:
replacing it leaves the loop's output unchanged, from any aligned cursor. -/
theorem syncReadLoop_set_cksum (d len : Nat) (resp : List Nat) (j c : Nat) :
    ∀ count m : Nat,
      syncReadLoop d len (resp.set (j * (6 + d) + 5 + d) c) count
          (m * (6 + d))
        = syncReadLoop d len resp count (m * (6 + d)) := by
  intro count
  induction count with
  | zero => intro m; rfl
  | succ k ih =>
    intro m
    unfold syncReadLoop
    by_cases hg : len < m * (6 + d) + 6 + d
    · simp only [if_pos hg]
      rw [ih m]
    · simp only [if_neg hg]
      have hnext : m * (6 + d) + 6 + d = (m + 1) * (6 + d) := by ring
      by_cases hd : 2 ≤ d
      · obtain ⟨h5, h6⟩ := cksum_pos_ne_data d m j hd
        simp only [if_pos hd]
        rw [getD_set_ne resp _ _ c h5, getD_set_ne resp _ _ c h6]
        rw [hnext, ih (m + 1)]
      · simp only [if_neg hd]
        rw [hnext, ih (m + 1)]

/-- The value the parse loop returns for a complete sub-response is the
little-endian `i16` decode of that sub-response's own data bytes. -/
theorem syncReadLoop_getD_complete (d len : Nat) (resp : List Nat) :
    ∀ count m i : Nat, i < count → (m + i + 1) * (6 + d) ≤ len →
      (syncReadLoop d len resp count (m * (6 + d))).getD i 0
        = (if 2 ≤ d then
            decodeI16LE (resp.getD ((m + i) * (6 + d) + 5) 0)
              (resp.getD ((m + i) * (6 + d) + 6) 0)
          else 0) := by
  intro count
  induction count with
  | zero => intro m i hi _; omega
  | succ k ih =>
    intro m i hi hlen
    unfold syncReadLoop
    have hmono : (m + 1) * (6 + d) ≤ (m + i + 1) * (6 + d) :=
      Nat.mul_le_mul_right _ (by omega)
    have heq : (m + 1) * (6 + d) = m * (6 + d) + 6 + d := by ring
    have hg : ¬ len < m * (6 + d) + 6 + d := by omega
    simp only [if_neg hg]
    cases i with
    | zero =>
      simp only [List.getD_cons_zero, Nat.add_zero]
    | succ i =>
      simp only [List.getD_cons_succ]
      rw [show m * (6 + d) + 6 + d = (m + 1) * (6 + d) from by ring]
      rw [ih (m + 1) i (by omega) (by
        rw [show m + 1 + i + 1 = m + (i + 1) + 1 from by omega]
        exact hlen)]
      rw [show m + 1 + i = m + (i + 1) from by omega]

/-- C2 amended: the receive path of `sync_read` performs no checksum
validation.  In every group read (any device count, data length and
response stream), every complete per-device sub-response is parsed into
the value carried by its own data bytes: the call returns `.ok` (it is not
treated as communication failure), the i-th value is the little-endian
decode of the i-th sub-response's data bytes, and replacing any
sub-response's checksum byte by any value leaves the result unchanged. -/
theorem C2_no_receive_checksum_check (n d : Nat) (resp : List Nat)
    (i : Nat) (hin : i < n) (hcomp : (i + 1) * (6 + d) ≤ resp.length) :
    ∃ vs, syncReadParse n d resp = .ok vs ∧
      vs.getD i 0 = (if 2 ≤ d then
          decodeI16LE (resp.getD (i * (6 + d) + 5) 0)
            (resp.getD (i * (6 + d) + 6) 0)
        else 0) ∧
      ∀ j c, syncReadParse n d (resp.set (j * (6 + d) + 5 + d) c)
        = syncReadParse n d resp := by
  have hpos : 0 < resp.length := by
    have h6 : 6 + d ≤ (i + 1) * (6 + d) :=
      Nat.le_mul_of_pos_left _ (by omega)
    omega
  refine ⟨syncReadLoop d resp.length resp n 0, ?_, ?_, ?_⟩
  · unfold syncReadParse
    rw [if_neg (by omega)]
  · have hv := syncReadLoop_getD_complete d resp.length resp n 0 i hin
      (by simpa using hcomp)
    simpa using hv
  · intro j c
    unfold syncReadParse
    rw [List.length_set]
    rw [if_neg (by omega), if_neg (by omega)]
    have hs := syncReadLoop_set_cksum d resp.length resp j c n 0
    simp only [Nat.zero_mul] at hs
    rw [hs]

/-- A two-device group-read response stream; the second sub-response's
checksum byte (99) is wrong, its data bytes carry the value 7. -/
def twoDeviceResp : List Nat :=
  [255, 255, 10, 4, 0, 5, 0, 245, 255, 255, 11, 4, 0, 7, 0, 99]

/-- C2 amended, witness: on a concrete two-device stream, the second
device's complete sub-response parses to the decode of its data bytes, and
replacing any device's checksum byte changes nothing. -/
theorem C2_no_receive_checksum_check_witness :
    1 < 2 ∧ (1 + 1) * (6 + 2) ≤ twoDeviceResp.length ∧
    ∃ vs, syncReadParse 2 2 twoDeviceResp = .ok vs ∧
      vs.getD 1 0 = (if 2 ≤ 2 then
          decodeI16LE (twoDeviceResp.getD (1 * (6 + 2) + 5) 0)
            (twoDeviceResp.getD (1 * (6 + 2) + 6) 0)
        else 0) ∧
      ∀ j c, syncReadParse 2 2 (twoDeviceResp.set (j * (6 + 2) + 5 + 2) c)
        = syncReadParse 2 2 twoDeviceResp :=
  ⟨by decide, by decide,
   C2_no_receive_checksum_check 2 2 twoDeviceResp 1 (by decide) (by decide)⟩

theorem syncReadLoop_length (d len : Nat) (resp : List Nat) :
    ∀ count cursor, (syncReadLoop d len resp count cursor).length = count := by
  intro count
  induction count with
  | zero => intro cursor; rfl
  | succ k ih =>
    intro cursor
    unfold syncReadLoop
    by_cases h : len < cursor + 6 + d
    · simp [h, ih]
    · simp [h, ih]

theorem syncReadLoop_getD_zero (d len : Nat) (resp : List Nat) :
    ∀ count cursor i, i < count → len < cursor + (i + 1) * (6 + d) →
      (syncReadLoop d len resp count cursor).getD i 0 = 0 := by
  intro count
  induction count with
  | zero => intro cursor i hi; omega
  | succ k ih =>
    intro cursor i hi hlen
    unfold syncReadLoop
    by_cases h : len < cursor + 6 + d
    · simp only [if_pos h]
      cases i with
      | zero => rfl
      | succ i =>
        simp only [List.getD_cons_succ]
        apply ih cursor i (by omega)
        have hm : (i + 1) * (6 + d) ≤ (i + 1 + 1) * (6 + d) :=
          Nat.mul_le_mul_right _ (by omega)
        have h6 : 6 + d ≤ (i + 1) * (6 + d) := Nat.le_mul_of_pos_left _ (by omega)
        omega
    · simp only [if_neg h]
      cases i with
      | zero =>
        exfalso
        have : (0 + 1) * (6 + d) = 6 + d := by ring
        omega
      | succ i =>
        simp only [List.getD_cons_succ]
        apply ih (cursor + 6 + d) i (by omega)
        have hm : (i + 1 + 1) * (6 + d) = (i + 1) * (6 + d) + (6 + d) := by ring
        omega

/-- C5.  Short-read padding: a non-empty group-read response shorter than
the full `n * (6 + dataLen)` bytes still yields exactly `n` values, with
value 0 for every device whose complete sub-response lies beyond the
truncation point; the call does not fail. -/
theorem C5_short_read_padding (n d : Nat) (resp : List Nat)
    (h0 : 0 < resp.length) (_hshort : resp.length < n * (6 + d)) :
    ∃ vs, syncReadParse n d resp = .ok vs ∧ vs.length = n ∧
      ∀ i, i < n → resp.length < (i + 1) * (6 + d) → vs.getD i 0 = 0 := by
  refine ⟨syncReadLoop d resp.length resp n 0, ?_, ?_, ?_⟩
  · unfold syncReadParse
    rw [if_neg (by omega)]
  · exact syncReadLoop_length d resp.length resp n 0
  · intro i hi hcut
    exact syncReadLoop_getD_zero d resp.length resp n 0 i hi (by omega)

/-- C5 witness: two devices, a 9-byte response (one full 8-byte
sub-response plus one stray byte) parses to two values with the second
padded to zero. -/
theorem C5_short_read_padding_witness :
    0 < ([255, 255, 1, 4, 0, 5, 0, 245, 255] : List Nat).length ∧
    ([255, 255, 1, 4, 0, 5, 0, 245, 255] : List Nat).length < 2 * (6 + 2) ∧
    ∃ vs, syncReadParse 2 2 [255, 255, 1, 4, 0, 5, 0, 245, 255] = .ok vs ∧
      vs.length = 2 ∧
      ∀ i, i < 2 →
        ([255, 255, 1, 4, 0, 5, 0, 245, 255] : List Nat).length <
          (i + 1) * (6 + 2) → vs.getD i 0 = 0 :=
  ⟨by decide, by decide,
    C5_short_read_padding 2 2 [255, 255, 1, 4, 0, 5, 0, 245, 255]
      (by decide) (by decide)⟩

/-! ### Unit conversion (motors.rs:382-399), modelled over exact reals -/

/-- Truncation toward zero: the rounding of Rust's `as i16` cast applied to
a finite `f64` before saturation. -/
noncomputable def rustTrunc (x : ℝ) : ℤ := if 0 ≤ x then ⌊x⌋ else ⌈x⌉

/-- Saturation of Rust's float-to-`i16` cast. -/
def i16sat (v : ℤ) : ℤ := max (-32768) (min 32767 v)

/-- The value `(degrees / 360.0 * 4096.0 + 2048.0) as i16` computes before
`clamp`, with `degrees = rad.to_degrees()`: the raw encoding of a radian
value (motors.rs:382-387). -/
noncomputable def rawEncoding (r : ℝ) : ℤ :=
  i16sat (rustTrunc (r * (180 / Real.pi) / 360 * 4096 + 2048))

/-- `rad_to_raw` (motors.rs:382-387): the raw encoding clamped to
`[0, 4095]`. -/
noncomputable def rad_to_raw (r : ℝ) : ℤ :=
  max 0 (min 4095 (rawEncoding r))

/-- `raw_to_rad` (motors.rs:390-392): `((raw - 2048) / 4096 * 360)`
converted to radians. -/
noncomputable def raw_to_rad (raw : ℤ) : ℝ :=
  ((raw : ℝ) - 2048) / 4096 * 360 * (Real.pi / 180)

theorem abs_rustTrunc_sub_le (x : ℝ) : |(rustTrunc x : ℝ) - x| ≤ 1 := by
  unfold rustTrunc
  by_cases h : 0 ≤ x
  · rw [if_pos h]
    have h1 := Int.floor_le x
    have h2 := Int.lt_floor_add_one x
    rw [abs_le]
    constructor <;> linarith
  · rw [if_neg h]
    have h1 := Int.le_ceil x
    have h2 := Int.ceil_lt_add_one x
    rw [abs_le]
    constructor <;> linarith

/-- C3.  Unit-conversion round-trip: for every radian value whose raw
encoding lies in `0..=4095` (the joint's physical range),
`raw_to_rad (rad_to_raw r)` differs from `r` by at most one raw unit's
angular resolution, `2π/4096`. -/
theorem C3_unit_roundtrip (r : ℝ) (h0 : 0 ≤ rawEncoding r)
    (h1 : rawEncoding r ≤ 4095) :
    |raw_to_rad (rad_to_raw r) - r| ≤ 2 * Real.pi / 4096 := by
  have hπ : (0 : ℝ) < Real.pi := Real.pi_pos
  have hπ' : Real.pi ≠ 0 := ne_of_gt hπ
  set u : ℝ := r * (180 / Real.pi) / 360 * 4096 + 2048 with hu
  have hre : rawEncoding r = i16sat (rustTrunc u) := by
    unfold rawEncoding
    rw [← hu]
  rw [hre] at h0 h1
  have hsat : i16sat (rustTrunc u) = rustTrunc u := by
    unfold i16sat at h0 h1 ⊢
    omega
  rw [hsat] at h0 h1
  have hclamp : rad_to_raw r = rustTrunc u := by
    unfold rad_to_raw
    rw [hre, hsat]
    omega
  have hr : r = (u - 2048) * Real.pi / 2048 := by
    rw [hu]
    field_simp
    ring
  have hraw : raw_to_rad (rustTrunc u)
      = ((rustTrunc u : ℝ) - 2048) * Real.pi / 2048 := by
    unfold raw_to_rad
    field_simp
    ring
  have key : raw_to_rad (rad_to_raw r) - r
      = ((rustTrunc u : ℝ) - u) * (Real.pi / 2048) := by
    rw [hclamp, hraw]
    rw [hr]
    ring
  rw [key, abs_mul, abs_of_pos (show (0 : ℝ) < Real.pi / 2048 by positivity)]
  have hbound := abs_rustTrunc_sub_le u
  have : |(rustTrunc u : ℝ) - u| * (Real.pi / 2048) ≤ 1 * (Real.pi / 2048) :=
    mul_le_mul_of_nonneg_right hbound (by positivity)
  linarith

theorem rawEncoding_zero : rawEncoding 0 = 2048 := by
  unfold rawEncoding rustTrunc
  have h : (0 : ℝ) * (180 / Real.pi) / 360 * 4096 + 2048 = ((2048 : ℤ) : ℝ) := by
    push_cast
    ring
  rw [h, if_pos (by positivity), Int.floor_intCast]
  unfold i16sat
  omega

/-- C3 witness: at `r = 0` the raw encoding is 2048, inside the physical
range, and the round-trip error is within `2π/4096`. -/
theorem C3_unit_roundtrip_witness :
    (0 ≤ rawEncoding 0 ∧ rawEncoding 0 ≤ 4095) ∧
      |raw_to_rad (rad_to_raw 0) - 0| ≤ 2 * Real.pi / 4096 :=
  ⟨⟨by rw [rawEncoding_zero]; omega, by rw [rawEncoding_zero]; omega⟩,
   C3_unit_roundtrip 0 (by rw [rawEncoding_zero]; omega)
     (by rw [rawEncoding_zero]; omega)⟩

theorem decode_encode_i16 (v : Int) (h0 : 0 ≤ v) (h1 : v < 32768) :
    decodeI16LE ((encodeI16LE v).getD 0 0) ((encodeI16LE v).getD 1 0) = v := by
  unfold encodeI16LE decodeI16LE
  simp only [List.getD_cons_zero, List.getD_cons_succ]
  have hv : v % 65536 = v := Int.emod_eq_of_lt h0 (by omega)
  rw [hv]
  split <;> omega

/-- C10.  Raw-command saturation: for every input radian value,
`rad_to_raw` returns a value in `[0, 4095]`, and the two-byte little-endian
`i16` payload that `sync_write_positions` encodes for it decodes back to
that same saturated in-range value — never a wrapped-around one. -/
theorem C10_raw_command_saturation (r : ℝ) :
    0 ≤ rad_to_raw r ∧ rad_to_raw r ≤ 4095 ∧
      decodeI16LE ((encodeI16LE (rad_to_raw r)).getD 0 0)
        ((encodeI16LE (rad_to_raw r)).getD 1 0) = rad_to_raw r := by
  have hb0 : 0 ≤ rad_to_raw r := by
    unfold rad_to_raw
    omega
  have hb1 : rad_to_raw r ≤ 4095 := by
    unfold rad_to_raw
    omega
  exact ⟨hb0, hb1, decode_encode_i16 _ hb0 (by omega)⟩

/-! ### Gait phase tracker (src/runtime/src/reference_motion.rs) -/

/-- Truncation toward zero on ℚ: the rounding used by Rust's float `%`. -/
def ratTrunc (q : ℚ) : ℤ := if 0 ≤ q then ⌊q⌋ else ⌈q⌉

/-- Rust's `%` on floats: `a - b * trunc(a / b)` — the remainder carries
the sign of the dividend. -/
def rustRem (a b : ℚ) : ℚ := a - b * (ratTrunc (a / b) : ℚ)

/-- `PhaseTracker` state (reference_motion.rs:19-31), with the `f64`
fields modelled exactly over ℚ. -/
structure PhaseTracker where
  nbStepsInPeriod : ℕ
  stepIndex : ℚ
  frequencyFactor : ℚ
  frequencyFactorOffset : ℚ
deriving DecidableEq

/-- `PhaseTracker::new` (reference_motion.rs:39-46). -/
def PhaseTracker.new (n : ℕ) (off : ℚ) : PhaseTracker :=
  ⟨n, 0, 1, off⟩

/-- `PhaseTracker::step` (reference_motion.rs:54-62): add the increment,
reduce with `%` by the period. -/
def PhaseTracker.step (t : PhaseTracker) : PhaseTracker :=
  { t with stepIndex := (rustRem
      (t.stepIndex + t.frequencyFactor + t.frequencyFactorOffset)
      (t.nbStepsInPeriod : ℚ)) }

/-- The `[cos(phase), sin(phase)]` signal (reference_motion.rs:58-61,
65-69) with `phase = step_index / nb_steps_in_period * 2π`. -/
noncomputable def PhaseTracker.phaseSignal (t : PhaseTracker) : ℝ × ℝ :=
  (Real.cos ((t.stepIndex : ℝ) / (t.nbStepsInPeriod : ℝ) * 2 * Real.pi),
   Real.sin ((t.stepIndex : ℝ) / (t.nbStepsInPeriod : ℝ) * 2 * Real.pi))

/-- `PhaseTracker::set_sprint` (reference_motion.rs:77-79). -/
def PhaseTracker.setSprint (t : PhaseTracker) (sprint : Bool) : PhaseTracker :=
  { t with frequencyFactor := if sprint then 13 / 10 else 1 }

/-- `PhaseTracker::adjust_offset` (reference_motion.rs:82-88). -/
def PhaseTracker.adjustOffset (t : PhaseTracker) (delta : ℚ) : PhaseTracker :=
  { t with frequencyFactorOffset := t.frequencyFactorOffset + delta }

/-- A step of the tracker's public mutating interface. -/
inductive PhaseOp where
  | step : PhaseOp
  | setSprint : Bool → PhaseOp
  | adjustOffset : ℚ → PhaseOp
deriving DecidableEq

def applyOp (t : PhaseTracker) : PhaseOp → PhaseTracker
  | .step => t.step
  | .setSprint b => t.setSprint b
  | .adjustOffset d => t.adjustOffset d

def applyOps (t : PhaseTracker) : List PhaseOp → PhaseTracker
  | [] => t
  | op :: rest => applyOps (applyOp t op) rest

/-- Every `advance` in the sequence happens while the per-tick increment
(frequency factor plus offset) is nonnegative. -/
def incrementsOk (t : PhaseTracker) : List PhaseOp → Bool
  | [] => true
  | op :: rest =>
    (match op with
     | .step => decide (0 ≤ t.frequencyFactor + t.frequencyFactorOffset)
     | _ => true) && incrementsOk (applyOp t op) rest

theorem rustRem_eq_floor (a b : ℚ) (ha : 0 ≤ a) (hb : 0 < b) :
    rustRem a b = a - b * (⌊a / b⌋ : ℚ) := by
  unfold rustRem ratTrunc
  rw [if_pos (div_nonneg ha hb.le)]

theorem rustRem_nonneg (a b : ℚ) (ha : 0 ≤ a) (hb : 0 < b) :
    0 ≤ rustRem a b := by
  rw [rustRem_eq_floor a b ha hb]
  have h : (⌊a / b⌋ : ℚ) ≤ a / b := Int.floor_le (a / b)
  have h2 : b * (⌊a / b⌋ : ℚ) ≤ b * (a / b) :=
    mul_le_mul_of_nonneg_left h hb.le
  have h3 : b * (a / b) = a := by field_simp
  linarith

theorem rustRem_lt (a b : ℚ) (ha : 0 ≤ a) (hb : 0 < b) :
    rustRem a b < b := by
  rw [rustRem_eq_floor a b ha hb]
  have h : a / b < (⌊a / b⌋ : ℚ) + 1 := Int.lt_floor_add_one (a / b)
  have h2 : b * (a / b) < b * ((⌊a / b⌋ : ℚ) + 1) :=
    mul_lt_mul_of_pos_left h hb
  have h3 : b * (a / b) = a := by field_simp
  nlinarith

theorem rustRem_sub_int (z n : ℚ) (m : ℤ) (hn : 0 < n) (hz0 : 0 ≤ z)
    (hz : 0 ≤ z - n * (m : ℚ)) :
    rustRem (z - n * (m : ℚ)) n = rustRem z n := by
  rw [rustRem_eq_floor _ _ hz hn, rustRem_eq_floor _ _ hz0 hn]
  have hn' : n ≠ 0 := ne_of_gt hn
  have hdiv : (z - n * (m : ℚ)) / n = z / n - (m : ℚ) := by
    field_simp
  rw [hdiv, Int.floor_sub_int]
  push_cast
  ring

theorem rustRem_add (x y n : ℚ) (hx : 0 ≤ x) (hy : 0 ≤ y) (hn : 0 < n) :
    rustRem (rustRem x n + y) n = rustRem (x + y) n := by
  have hfl := rustRem_eq_floor x n hx hn
  have h1 : rustRem x n + y = (x + y) - n * (⌊x / n⌋ : ℚ) := by
    rw [hfl]; ring
  rw [h1]
  apply rustRem_sub_int (x + y) n ⌊x / n⌋ hn (by linarith)
  rw [← h1]
  have := rustRem_nonneg x n hx hn
  linarith

theorem applyOp_nb (t : PhaseTracker) (op : PhaseOp) :
    (applyOp t op).nbStepsInPeriod = t.nbStepsInPeriod := by
  cases op <;> rfl

theorem applyOps_nb (ops : List PhaseOp) :
    ∀ t : PhaseTracker,
      (applyOps t ops).nbStepsInPeriod = t.nbStepsInPeriod := by
  induction ops with
  | nil => intro t; rfl
  | cons op rest ih =>
    intro t
    rw [show applyOps t (op :: rest) = applyOps (applyOp t op) rest from rfl,
      ih, applyOp_nb]

theorem phase_invariant (ops : List PhaseOp) :
    ∀ t : PhaseTracker, 0 < t.nbStepsInPeriod →
      0 ≤ t.stepIndex → t.stepIndex < (t.nbStepsInPeriod : ℚ) →
      incrementsOk t ops = true →
      0 ≤ (applyOps t ops).stepIndex ∧
        (applyOps t ops).stepIndex <
          ((applyOps t ops).nbStepsInPeriod : ℚ) := by
  induction ops with
  | nil =>
    intro t _ h2 h3 _
    exact ⟨h2, h3⟩
  | cons op rest ih =>
    intro t h1 h2 h3 hok
    simp only [incrementsOk, Bool.and_eq_true] at hok
    obtain ⟨hop, hrest⟩ := hok
    have hn : (0 : ℚ) < (t.nbStepsInPeriod : ℚ) := by
      exact_mod_cast h1
    rw [show applyOps t (op :: rest) = applyOps (applyOp t op) rest from rfl]
    cases op with
    | step =>
      have hc : 0 ≤ t.frequencyFactor + t.frequencyFactorOffset :=
        of_decide_eq_true hop
      have hidx : (applyOp t PhaseOp.step).stepIndex
          = rustRem
              (t.stepIndex + t.frequencyFactor + t.frequencyFactorOffset)
              (t.nbStepsInPeriod : ℚ) := rfl
      refine ih (applyOp t PhaseOp.step) ?_ ?_ ?_ hrest
      · rw [applyOp_nb]; exact h1
      · rw [hidx]
        exact rustRem_nonneg _ _ (by linarith) hn
      · rw [hidx, applyOp_nb]
        exact rustRem_lt _ _ (by linarith) hn
    | setSprint b =>
      exact ih (applyOp t (PhaseOp.setSprint b))
        (by rw [applyOp_nb]; exact h1) h2 h3 hrest
    | adjustOffset d =>
      exact ih (applyOp t (PhaseOp.adjustOffset d))
        (by rw [applyOp_nb]; exact h1) h2 h3 hrest

theorem step_iter (N : ℕ) (hN : 0 < N) (c : ℚ) (hc : 0 ≤ c) :
    ∀ (k : ℕ) (t : PhaseTracker), t.nbStepsInPeriod = N →
      t.frequencyFactor + t.frequencyFactorOffset = c →
      ∀ x : ℚ, 0 ≤ x → t.stepIndex = rustRem x (N : ℚ) →
      (applyOps t (List.replicate k .step)).stepIndex
        = rustRem (x + k * c) (N : ℚ) := by
  have hNq : (0 : ℚ) < (N : ℚ) := by exact_mod_cast hN
  intro k
  induction k with
  | zero =>
    intro t hnb hfac x hx hidx
    simpa [applyOps] using hidx
  | succ k ih =>
    intro t hnb hfac x hx hidx
    rw [show List.replicate (k + 1) PhaseOp.step
        = PhaseOp.step :: List.replicate k PhaseOp.step from rfl]
    rw [show applyOps t (PhaseOp.step :: List.replicate k PhaseOp.step)
        = applyOps (applyOp t PhaseOp.step) (List.replicate k PhaseOp.step)
        from rfl]
    have hstep : (applyOp t PhaseOp.step).stepIndex
        = rustRem (x + c) (N : ℚ) := by
      show rustRem (t.stepIndex + t.frequencyFactor + t.frequencyFactorOffset)
          (t.nbStepsInPeriod : ℚ) = rustRem (x + c) (N : ℚ)
      rw [hnb, hidx]
      rw [show rustRem x (N : ℚ) + t.frequencyFactor + t.frequencyFactorOffset
          = rustRem x (N : ℚ)
            + (t.frequencyFactor + t.frequencyFactorOffset) by ring, hfac]
      exact rustRem_add x c (N : ℚ) hx hc hNq
    have := ih (applyOp t PhaseOp.step) (by rw [applyOp_nb]; exact hnb)
      (by show t.frequencyFactor + t.frequencyFactorOffset = c; exact hfac)
      (x + c) (by linarith) hstep
    rw [this]
    congr 1
    push_cast
    ring

theorem rustRem_self (n : ℚ) (hn : 0 < n) : rustRem n n = 0 := by
  rw [rustRem_eq_floor n n hn.le hn]
  rw [div_self (ne_of_gt hn)]
  rw [show ((1 : ℚ)) = ((1 : ℤ) : ℚ) by norm_num, Int.floor_intCast]
  push_cast
  ring

theorem rustRem_of_neg (a b : ℚ) (h1 : -b < a) (h2 : a < 0) (hb : 0 < b) :
    rustRem a b = a := by
  unfold rustRem ratTrunc
  have hd : a / b < 0 := div_neg_of_neg_of_pos h2 hb
  rw [if_neg (not_le.mpr hd)]
  have hc : ⌈a / b⌉ = 0 := by
    rw [Int.ceil_eq_zero_iff]
    constructor
    · rw [lt_div_iff₀ hb]
      linarith
    · exact hd.le
  rw [hc]
  push_cast
  ring

/-- C6 counterexample: starting from index 0 with period 25, one
`adjust_offset(-2)` followed by one advance leaves the fractional step
index at −1, outside `[0, 25)`. -/
theorem C6_counterexample :
    ¬ (0 ≤ (applyOps (PhaseTracker.new 25 0)
        [PhaseOp.adjustOffset (-2), PhaseOp.step]).stepIndex) := by
  have h : (applyOps (PhaseTracker.new 25 0)
      [PhaseOp.adjustOffset (-2), PhaseOp.step]).stepIndex
      = rustRem (0 + 1 + (0 + -2)) ((25 : ℕ) : ℚ) := rfl
  rw [h, rustRem_of_neg _ _ (by norm_num) (by norm_num) (by norm_num)]
  norm_num

/-- C6 amended: (a) as long as every advance happens while the per-tick
increment (frequency factor plus offset) is nonnegative, any interleaving
of advances with `set_sprint` and `adjust_offset` keeps the fractional
step index in `[0, steps-per-period)`; (b) starting from index 0, when
steps-per-period is `k` times the (positive, fixed) increment, exactly `k`
advances return the index and the `[cos, sin]` phase signal to their
starting values. -/
theorem C6_phase_wrap_amended :
    (∀ (ops : List PhaseOp) (t : PhaseTracker), 0 < t.nbStepsInPeriod →
      0 ≤ t.stepIndex → t.stepIndex < (t.nbStepsInPeriod : ℚ) →
      incrementsOk t ops = true →
      0 ≤ (applyOps t ops).stepIndex ∧
        (applyOps t ops).stepIndex <
          ((applyOps t ops).nbStepsInPeriod : ℚ)) ∧
    (∀ (t : PhaseTracker) (k : ℕ), 0 < t.nbStepsInPeriod →
      t.stepIndex = 0 →
      0 < t.frequencyFactor + t.frequencyFactorOffset →
      (k : ℚ) * (t.frequencyFactor + t.frequencyFactorOffset)
        = (t.nbStepsInPeriod : ℚ) →
      (applyOps t (List.replicate k .step)).stepIndex = 0 ∧
        (applyOps t (List.replicate k .step)).phaseSignal
          = t.phaseSignal) := by
  constructor
  · intro ops t h1 h2 h3 hok
    exact phase_invariant ops t h1 h2 h3 hok
  · intro t k h1 h0 hc hk
    have hNq : (0 : ℚ) < (t.nbStepsInPeriod : ℚ) := by exact_mod_cast h1
    have hidx0 : t.stepIndex = rustRem 0 (t.nbStepsInPeriod : ℚ) := by
      rw [h0]
      unfold rustRem ratTrunc
      norm_num
    have hfin := step_iter t.nbStepsInPeriod h1
      (t.frequencyFactor + t.frequencyFactorOffset) hc.le k t rfl rfl 0
      le_rfl hidx0
    rw [zero_add, hk, rustRem_self _ hNq] at hfin
    refine ⟨hfin, ?_⟩
    unfold PhaseTracker.phaseSignal
    rw [hfin, h0, applyOps_nb]

/-- C6 amended, witness: part (a) at a concrete op sequence and part (b)
with period 25 and unit increment. -/
theorem C6_phase_wrap_amended_witness :
    (0 ≤ (applyOps (PhaseTracker.new 25 0)
        [PhaseOp.step, PhaseOp.setSprint true, PhaseOp.step]).stepIndex ∧
      (applyOps (PhaseTracker.new 25 0)
        [PhaseOp.step, PhaseOp.setSprint true, PhaseOp.step]).stepIndex <
        (((applyOps (PhaseTracker.new 25 0)
          [PhaseOp.step, PhaseOp.setSprint true,
            PhaseOp.step]).nbStepsInPeriod : ℕ) : ℚ)) ∧
    ((applyOps (PhaseTracker.new 25 0)
        (List.replicate 25 .step)).stepIndex = 0 ∧
      (applyOps (PhaseTracker.new 25 0)
        (List.replicate 25 .step)).phaseSignal
        = (PhaseTracker.new 25 0).phaseSignal) :=
  ⟨C6_phase_wrap_amended.1
      [PhaseOp.step, PhaseOp.setSprint true, PhaseOp.step]
      (PhaseTracker.new 25 0) (by norm_num [PhaseTracker.new])
      (by norm_num [PhaseTracker.new])
      (by norm_num [PhaseTracker.new])
      (by norm_num [incrementsOk, applyOp, PhaseTracker.new,
        PhaseTracker.setSprint, PhaseTracker.step]),
   C6_phase_wrap_amended.2 (PhaseTracker.new 25 0) 25
      (by norm_num [PhaseTracker.new]) rfl
      (by norm_num [PhaseTracker.new]) (by norm_num [PhaseTracker.new])⟩

/-! ### Button debouncing (src/runtime/src/controller.rs) -/

/-- `ButtonState::TIMEOUT` = 0.2 (controller.rs:29). -/
def TIMEOUT : ℚ := 1 / 5

/-- `ButtonState` (controller.rs:20-26), with the `f64` press time exact. -/
structure ButtonState where
  is_pressed : Bool
  triggered : Bool
  released : Bool
  last_pressed_time : ℚ
deriving DecidableEq

/-- `ButtonState::new` (controller.rs:31-36): all-default with
`released = true`. -/
def ButtonState.new : ButtonState := ⟨false, false, true, 0⟩

/-- `ButtonState::update` (controller.rs:38-54): a falling edge marks the
button released; a press while released and more than `TIMEOUT` after the
last trigger fires `triggered` and records the time; holding the button
clears `released`. -/
def ButtonState.update (s : ButtonState) (value : Bool) (now : ℚ) :
    ButtonState :=
  let rel := if s.is_pressed = true ∧ value = false then true else s.released
  if rel = true ∧ value = true ∧ TIMEOUT < now - s.last_pressed_time then
    ⟨value, true, if value = true then false else rel, now⟩
  else
    ⟨value, false, if value = true then false else rel, s.last_pressed_time⟩

/-- Run a list of `(value, now)` samples through `update`. -/
def runUpdates (s : ButtonState) : List (Bool × ℚ) → ButtonState
  | [] => s
  | u :: rest => runUpdates (s.update u.1 u.2) rest

/-- How many of the samples report `triggered` after their update. -/
def triggerCount (s : ButtonState) : List (Bool × ℚ) → Nat
  | [] => 0
  | u :: rest =>
    (if (s.update u.1 u.2).triggered = true then 1 else 0)
      + triggerCount (s.update u.1 u.2) rest

theorem update_press_trig (trg0 : Bool) (L t : ℚ) (h : TIMEOUT < t - L) :
    (ButtonState.mk false trg0 true L).update true t
      = ⟨true, true, false, t⟩ := by
  simp [ButtonState.update, h]

theorem update_press_no_trig (trg0 : Bool) (L t : ℚ)
    (h : ¬ TIMEOUT < t - L) :
    (ButtonState.mk false trg0 true L).update true t
      = ⟨true, false, false, L⟩ := by
  simp [ButtonState.update, h]

theorem update_release (trg0 rel0 : Bool) (L r : ℚ) :
    (ButtonState.mk true trg0 rel0 L).update false r
      = ⟨false, false, true, L⟩ := by
  simp [ButtonState.update]

theorem update_true_released (s : ButtonState) (t : ℚ) :
    (s.update true t).released = false := by
  simp [ButtonState.update, apply_ite ButtonState.released]

theorem update_true_of_not_released (s : ButtonState)
    (h : s.released = false) (t : ℚ) :
    (s.update true t).triggered = false ∧ (s.update true t).released = false := by
  unfold ButtonState.update
  simp [h]

theorem heldZero (ts : List ℚ) :
    ∀ s : ButtonState, s.released = false →
      triggerCount s (ts.map fun t => (true, t)) = 0 := by
  induction ts with
  | nil => intro s _; rfl
  | cons t ts ih =>
    intro s h
    obtain ⟨h1, h2⟩ := update_true_of_not_released s h t
    show (if (s.update true t).triggered = true then 1 else 0)
        + triggerCount (s.update true t) (ts.map fun t => (true, t)) = 0
    rw [h1, ih (s.update true t) h2]
    rfl

/-- C7 counterexample: presses at times 0.1 and 0.4 — separated by 0.3,
more than the debounce interval, with a full release in between — report
triggered once, not twice: the first press falls within the debounce
interval of the tracker's zero-initialized last-trigger time. -/
theorem C7_counterexample :
    TIMEOUT < (2 / 5 : ℚ) - 1 / 10 ∧
      triggerCount ButtonState.new
        [(true, 1 / 10), (false, 1 / 5), (true, 2 / 5)] = 1 := by
  constructor
  · norm_num [TIMEOUT]
  · have h1 : ButtonState.new.update true (1 / 10)
        = ⟨true, false, false, 0⟩ := by
      have := update_press_no_trig false 0 (1 / 10)
        (by norm_num [TIMEOUT])
      simpa [ButtonState.new] using this
    have h2 : (ButtonState.mk true false false 0).update false (1 / 5)
        = ⟨false, false, true, 0⟩ := update_release false false 0 (1 / 5)
    have h3 : (ButtonState.mk false false true 0).update true (2 / 5)
        = ⟨true, true, false, 2 / 5⟩ :=
      update_press_trig false 0 (2 / 5) (by norm_num [TIMEOUT])
    show (if (ButtonState.new.update true (1 / 10)).triggered = true
          then 1 else 0) + _ = 1
    rw [h1]
    show (0 : Nat) + ((if ((ButtonState.mk true false false 0).update
        false (1 / 5)).triggered = true then 1 else 0) + _) = 1
    rw [h2]
    show (0 : Nat) + ((0 : Nat)
        + ((if ((ButtonState.mk false false true 0).update
            true (2 / 5)).triggered = true then 1 else 0) + 0)) = 1
    rw [h3]
    norm_num

/-- C7 amended: (a) two presses (with a release in between) whose press
transitions are separated by less than the debounce interval report
triggered at most once; (b) two presses each preceded by a full release and
separated by more than the interval report triggered twice, provided the
first press also occurs more than the interval after the button's
zero-initialized last-trigger time; (c) a press held without any
intervening release never reports triggered more than once, however many
updates occur and from whatever prior state. -/
theorem C7_button_debounce_amended :
    (∀ t1 r t2 : ℚ, t2 - t1 < TIMEOUT →
      triggerCount ButtonState.new
        [(true, t1), (false, r), (true, t2)] ≤ 1) ∧
    (∀ t1 r t2 : ℚ, TIMEOUT < t1 → TIMEOUT < t2 - t1 →
      triggerCount ButtonState.new
        [(true, t1), (false, r), (true, t2)] = 2) ∧
    (∀ (s : ButtonState) (t1 : ℚ) (ts : List ℚ),
      triggerCount s ((true, t1) :: ts.map fun t => (true, t)) ≤ 1) := by
  refine ⟨?_, ?_, ?_⟩
  · intro t1 r t2 hsep
    by_cases hp1 : TIMEOUT < t1 - 0
    · have h1 : ButtonState.new.update true t1 = ⟨true, true, false, t1⟩ :=
        update_press_trig false 0 t1 hp1
      have h2 := update_release true false t1 r
      have h3 : (ButtonState.mk false false true t1).update true t2
          = ⟨true, false, false, t1⟩ :=
        update_press_no_trig false t1 t2 (by rw [not_lt]; linarith)
      show (if (ButtonState.new.update true t1).triggered = true
            then 1 else 0) + _ ≤ 1
      rw [h1]
      show (1 : Nat) + ((if ((ButtonState.mk true true false t1).update
          false r).triggered = true then 1 else 0) + _) ≤ 1
      rw [h2]
      show (1 : Nat) + ((0 : Nat)
          + ((if ((ButtonState.mk false false true t1).update
              true t2).triggered = true then 1 else 0) + 0)) ≤ 1
      rw [h3]
      norm_num
    · have h1 : ButtonState.new.update true t1 = ⟨true, false, false, 0⟩ :=
        update_press_no_trig false 0 t1 hp1
      have h2 := update_release false false 0 r
      show (if (ButtonState.new.update true t1).triggered = true
            then 1 else 0) + _ ≤ 1
      rw [h1]
      show (0 : Nat) + ((if ((ButtonState.mk true false false 0).update
          false r).triggered = true then 1 else 0) + _) ≤ 1
      rw [h2]
      show (0 : Nat) + ((0 : Nat)
          + ((if ((ButtonState.mk false false true 0).update
              true t2).triggered = true then 1 else 0) + 0)) ≤ 1
      by_cases hp3 : TIMEOUT < t2 - 0
      · rw [update_press_trig false 0 t2 hp3]
        norm_num
      · rw [update_press_no_trig false 0 t2 hp3]
        norm_num
  · intro t1 r t2 h1q h2q
    have h1 : ButtonState.new.update true t1 = ⟨true, true, false, t1⟩ :=
      update_press_trig false 0 t1 (by rw [sub_zero]; exact h1q)
    have h2 := update_release true false t1 r
    have h3 : (ButtonState.mk false false true t1).update true t2
        = ⟨true, true, false, t2⟩ :=
      update_press_trig false t1 t2 h2q
    show (if (ButtonState.new.update true t1).triggered = true
          then 1 else 0) + _ = 2
    rw [h1]
    show (1 : Nat) + ((if ((ButtonState.mk true true false t1).update
        false r).triggered = true then 1 else 0) + _) = 2
    rw [h2]
    show (1 : Nat) + ((0 : Nat)
        + ((if ((ButtonState.mk false false true t1).update
            true t2).triggered = true then 1 else 0) + 0)) = 2
    rw [h3]
    norm_num
  · intro s t1 ts
    show (if (s.update true t1).triggered = true then 1 else 0)
        + triggerCount (s.update true t1) (ts.map fun t => (true, t)) ≤ 1
    rw [heldZero ts (s.update true t1) (update_true_released s t1)]
    split <;> norm_num

/-- C7 amended, witness: concrete times — presses at 0.3 and 0.35 around a
release trigger at most once; presses at 0.3 and 0.6 trigger twice; a press
at 0.3 held for two more samples triggers at most once. -/
theorem C7_button_debounce_amended_witness :
    ((35 / 100 : ℚ) - 3 / 10 < TIMEOUT ∧
      triggerCount ButtonState.new
        [(true, 3 / 10), (false, 32 / 100), (true, 35 / 100)] ≤ 1) ∧
    (TIMEOUT < (3 / 10 : ℚ) ∧ TIMEOUT < (6 / 10 : ℚ) - 3 / 10 ∧
      triggerCount ButtonState.new
        [(true, 3 / 10), (false, 4 / 10), (true, 6 / 10)] = 2) ∧
    triggerCount ButtonState.new
      ((true, 3 / 10) ::
        ([4 / 10, 5 / 10] : List ℚ).map fun t => (true, t)) ≤ 1 :=
  ⟨⟨by norm_num [TIMEOUT],
     C7_button_debounce_amended.1 (3 / 10) (32 / 100) (35 / 100)
       (by norm_num [TIMEOUT])⟩,
   ⟨by norm_num [TIMEOUT], by norm_num [TIMEOUT],
     C7_button_debounce_amended.2.1 (3 / 10) (4 / 10) (6 / 10)
       (by norm_num [TIMEOUT]) (by norm_num [TIMEOUT])⟩,
   C7_button_debounce_amended.2.2 ButtonState.new (3 / 10) [4 / 10, 5 / 10]⟩

/-! ### Control loop tick (src/runtime/src/main.rs:223-402)

The per-tick data (controller snapshot, sensor reads, the inference
outcome) is supplied by the environment as a `TickInput`; the observation
vector feeds only the external inference call, so its assembly is recorded
as an event.  `f64` state is modelled over ℚ. -/

def NUM_DOFS : Nat := 14

/-- `LowPassActionFilter` (rl_utils.rs:104-139). -/
structure LowPassActionFilter where
  alpha : ℚ
  last_action : List ℚ
  current_action : List ℚ
  initialized : Bool
deriving DecidableEq

/-- `LowPassActionFilter::push` (rl_utils.rs:122-128). -/
def LowPassActionFilter.push (f : LowPassActionFilter) (action : List ℚ) :
    LowPassActionFilter :=
  if f.initialized = false then ⟨f.alpha, action, action, true⟩
  else ⟨f.alpha, f.last_action, action, f.initialized⟩

/-- `LowPassActionFilter::get_filtered_action` (rl_utils.rs:130-138):
returns the updated filter and the filtered vector. -/
def LowPassActionFilter.filtered (f : LowPassActionFilter) :
    LowPassActionFilter × List ℚ :=
  let res := (f.last_action.zip f.current_action).map
    (fun p => f.alpha * p.1 + (1 - f.alpha) * p.2)
  (⟨f.alpha, res, f.current_action, f.initialized⟩, res)

/-- The slice of `ControllerOutput` (controller.rs:87-93) the control loop
reads: the command axes and the button states it dispatches on. -/
structure CtrlOutput where
  commands : List ℚ
  aTriggered : Bool
  dpadUpTriggered : Bool
  dpadDownTriggered : Bool
  lbPressed : Bool
deriving DecidableEq

/-- The control loop's cross-tick mutable state (main.rs:204-219). -/
structure CtrlState where
  paused : Bool
  phase : PhaseTracker
  lastAction : List ℚ
  lastLastAction : List ℚ
  lastLastLastAction : List ℚ
  motorTargets : List ℚ
  lastCommands : List ℚ
  actionFilter : Option LowPassActionFilter
deriving DecidableEq

/-- Environment-supplied data for one tick: the controller snapshot (when
a gamepad is configured), IMU sample, the outcomes of the two group reads
and of the inference call, the foot contacts, and whether one second has
elapsed since startup (the filter warm-up gate, main.rs:368). -/
structure TickInput where
  controller : Option CtrlOutput
  imuGyro : List ℚ
  imuAccel : List ℚ
  posRead : Option (List ℚ)
  velRead : Option (List ℚ)
  feet : List ℚ
  inferResult : Option (List ℚ)
  filterWarm : Bool
deriving DecidableEq

/-- The steps a tick performs, in the order the loop body reaches them. -/
inductive TickEvent where
  | inputPoll : TickEvent
  | imuRead : TickEvent
  | posRead : TickEvent
  | velRead : TickEvent
  | feetRead : TickEvent
  | phaseAdvance : TickEvent
  | obsAssemble : TickEvent
  | inference : TickEvent
  | historyUpdate : TickEvent
  | targetCompute : TickEvent
  | motorWrite : TickEvent
deriving DecidableEq

/-- The gamepad-input block at the top of a tick (main.rs:227-273):
update `last_commands`, toggle pause on A, nudge the phase offset on the
d-pad, and set sprint from LB. -/
def pollInput (s : CtrlState) (c : CtrlOutput) : CtrlState :=
  let s1 := { s with lastCommands := c.commands }
  let s2 := if c.aTriggered = true then { s1 with paused := !s1.paused }
    else s1
  let s3 := if c.dpadUpTriggered = true then
      { s2 with phase := s2.phase.adjustOffset (5 / 100) }
    else s2
  let s4 := if c.dpadDownTriggered = true then
      { s3 with phase := s3.phase.adjustOffset (-(5 / 100)) }
    else s3
  { s4 with phase := s4.phase.setSprint c.lbPressed }

/-- One iteration of the main control loop (main.rs:223-402): returns the
successor state, the trace of steps reached, and the motor-target vector
written to the bus (`none` when the tick issues no write). -/
def tick (initPos : List ℚ) (actionScale : ℚ) (s0 : CtrlState)
    (inp : TickInput) : CtrlState × List TickEvent × Option (List ℚ) :=
  let s1 := match inp.controller with
    | none => s0
    | some c => pollInput s0 c
  let ev1 : List TickEvent := match inp.controller with
    | none => []
    | some _ => [TickEvent.inputPoll]
  if s1.paused = true then (s1, ev1, none)
  else
    let ev2 := ev1 ++ [TickEvent.imuRead]
    match inp.posRead with
    | none => (s1, ev2 ++ [TickEvent.posRead], none)
    | some pos =>
      if pos.length = NUM_DOFS then
        match inp.velRead with
        | none => (s1, ev2 ++ [TickEvent.posRead, TickEvent.velRead], none)
        | some vel =>
          if vel.length = NUM_DOFS then
            let s2 := { s1 with phase := s1.phase.step }
            let ev3 := ev2 ++ [TickEvent.posRead, TickEvent.velRead,
              TickEvent.feetRead, TickEvent.phaseAdvance,
              TickEvent.obsAssemble]
            match inp.inferResult with
            | none => (s2, ev3 ++ [TickEvent.inference], none)
            | some action =>
              let s3 := { s2 with
                lastLastLastAction := s2.lastLastAction,
                lastLastAction := s2.lastAction,
                lastAction := action }
              let targets0 := (initPos.zip action).map
                (fun p => p.1 + p.2 * actionScale)
              let fm : Option LowPassActionFilter × List ℚ :=
                match s3.actionFilter with
                | none => (none, targets0)
                | some f =>
                  let f1 := f.push targets0
                  if inp.filterWarm = true then
                    (some (f1.filtered).1, (f1.filtered).2)
                  else (some f1, targets0)
              let t1 := fm.2
              let t2 :=
                if 8 < t1.length then
                  (((t1.set 5 (s3.lastCommands.getD 3 0 + t1.getD 5 0)).set
                      6 (s3.lastCommands.getD 4 0 + t1.getD 6 0)).set
                      7 (s3.lastCommands.getD 5 0 + t1.getD 7 0)).set
                      8 (s3.lastCommands.getD 6 0 + t1.getD 8 0)
                else t1
              let s4 := { s3 with motorTargets := t2, actionFilter := fm.1 }
              (s4, ev3 ++ [TickEvent.inference, TickEvent.historyUpdate,
                TickEvent.targetCompute, TickEvent.motorWrite], some t2)
          else (s1, ev2 ++ [TickEvent.posRead, TickEvent.velRead], none)
      else (s1, ev2 ++ [TickEvent.posRead], none)

/-- The read of a group-read result fails when it is `None` or has the
wrong number of values (main.rs:285-293). -/
def readFails (o : Option (List ℚ)) : Prop :=
  ∀ v, o = some v → v.length ≠ NUM_DOFS

theorem pollInput_fields (s : CtrlState) (c : CtrlOutput) :
    (pollInput s c).lastAction = s.lastAction ∧
    (pollInput s c).lastLastAction = s.lastLastAction ∧
    (pollInput s c).lastLastLastAction = s.lastLastLastAction ∧
    (pollInput s c).motorTargets = s.motorTargets ∧
    (pollInput s c).actionFilter = s.actionFilter ∧
    (pollInput s c).lastCommands = c.commands ∧
    (pollInput s c).phase.stepIndex = s.phase.stepIndex := by
  unfold pollInput
  split_ifs <;>
    simp [PhaseTracker.adjustOffset, PhaseTracker.setSprint]

/-- A controller snapshot with centered sticks and no button activity. -/
def idleCtrl : CtrlOutput := ⟨[0, 0, 0, 0, 0, 0, 0], false, false, false, false⟩

/-- A controller snapshot commanding forward velocity 1. -/
def oneCtrl : CtrlOutput := ⟨[1, 0, 0, 0, 0, 0, 0], false, false, false, false⟩

/-- A running control-loop state at startup defaults. -/
def startState : CtrlState :=
  ⟨false, PhaseTracker.new 25 0, List.replicate 14 0, List.replicate 14 0,
   List.replicate 14 0, List.replicate 14 0, List.replicate 7 0, none⟩

/-- A tick whose position group-read fails (`None`). -/
def readFailInput : TickInput :=
  ⟨some idleCtrl, [0, 0, 0], [0, 0, 0], none, none, [0, 0], none, false⟩

/-- A tick with fresh commands whose position group-read fails. -/
def readFailCmdInput : TickInput :=
  ⟨some oneCtrl, [0, 0, 0], [0, 0, 0], none, none, [0, 0], none, false⟩

/-- A fully successful tick. -/
def okInput : TickInput :=
  ⟨some idleCtrl, [0, 0, 0], [0, 0, 0], some (List.replicate 14 0),
   some (List.replicate 14 0), [0, 0], some (List.replicate 14 0), false⟩

/-- C8 counterexample: on a concrete non-paused tick whose position read
fails, the trace is input poll, IMU read, position read — the gait phase
was never advanced and the tracker is unchanged, contradicting both the
claimed poll → phase → read order and the claim that a read-failing tick
has still advanced the phase. -/
theorem C8_counterexample :
    (tick (List.replicate 14 0) (1 / 4) startState readFailInput).2.1
      = [TickEvent.inputPoll, TickEvent.imuRead, TickEvent.posRead] ∧
    (tick (List.replicate 14 0) (1 / 4) startState readFailInput).1.phase
      = startState.phase := by
  constructor <;> rfl

/-- C8 amended: in every running tick the steps occur in the order input
poll, position read, velocity read (each skipping the rest of the tick on
failure), feet-contact read, gait-phase advance, observation assembly,
inference (skipping on failure), history update, target computation, motor
write; in particular the phase is advanced after the reads, so a tick that
fails a read has not advanced the phase. -/
theorem C8_tick_order_amended (initPos : List ℚ) (actionScale : ℚ)
    (s : CtrlState) (inp : TickInput) (c : CtrlOutput)
    (hc : inp.controller = some c)
    (hp : (pollInput s c).paused = false) :
    (∀ pos vel action, inp.posRead = some pos → pos.length = NUM_DOFS →
      inp.velRead = some vel → vel.length = NUM_DOFS →
      inp.inferResult = some action →
      (tick initPos actionScale s inp).2.1
        = [TickEvent.inputPoll, TickEvent.imuRead, TickEvent.posRead,
           TickEvent.velRead, TickEvent.feetRead, TickEvent.phaseAdvance,
           TickEvent.obsAssemble, TickEvent.inference,
           TickEvent.historyUpdate, TickEvent.targetCompute,
           TickEvent.motorWrite]) ∧
    (inp.posRead = none →
      (tick initPos actionScale s inp).2.1
        = [TickEvent.inputPoll, TickEvent.imuRead, TickEvent.posRead] ∧
      (tick initPos actionScale s inp).1.phase = (pollInput s c).phase ∧
      (tick initPos actionScale s inp).1.phase.stepIndex
        = s.phase.stepIndex) ∧
    (∀ pos, inp.posRead = some pos → pos.length = NUM_DOFS →
      inp.velRead = none →
      (tick initPos actionScale s inp).2.1
        = [TickEvent.inputPoll, TickEvent.imuRead, TickEvent.posRead,
           TickEvent.velRead] ∧
      (tick initPos actionScale s inp).1.phase.stepIndex
        = s.phase.stepIndex) ∧
    (∀ pos vel, inp.posRead = some pos → pos.length = NUM_DOFS →
      inp.velRead = some vel → vel.length = NUM_DOFS →
      inp.inferResult = none →
      (tick initPos actionScale s inp).2.1
        = [TickEvent.inputPoll, TickEvent.imuRead, TickEvent.posRead,
           TickEvent.velRead, TickEvent.feetRead, TickEvent.phaseAdvance,
           TickEvent.obsAssemble, TickEvent.inference]) := by
  obtain ⟨f1, f2, f3, f4, f5, f6, f7⟩ := pollInput_fields s c
  refine ⟨?_, ?_, ?_, ?_⟩
  · intro pos vel action hpos hlp hvel hlv hinf
    simp [tick, hc, hp, hpos, hlp, hvel, hlv, hinf]
  · intro hpos
    refine ⟨?_, ?_, ?_⟩
    · simp [tick, hc, hp, hpos]
    · simp [tick, hc, hp, hpos]
    · simp [tick, hc, hp, hpos, f7]
  · intro pos hpos hlp hvel
    refine ⟨?_, ?_⟩
    · simp [tick, hc, hp, hpos, hlp, hvel]
    · simp [tick, hc, hp, hpos, hlp, hvel, f7]
  · intro pos vel hpos hlp hvel hlv hinf
    simp [tick, hc, hp, hpos, hlp, hvel, hlv, hinf]

/-- C8 amended, witness: the full trace on a successful tick and the
truncated trace on a read-failing tick, at concrete inputs. -/
theorem C8_tick_order_amended_witness :
    (tick (List.replicate 14 0) (1 / 4) startState okInput).2.1
      = [TickEvent.inputPoll, TickEvent.imuRead, TickEvent.posRead,
         TickEvent.velRead, TickEvent.feetRead, TickEvent.phaseAdvance,
         TickEvent.obsAssemble, TickEvent.inference,
         TickEvent.historyUpdate, TickEvent.targetCompute,
         TickEvent.motorWrite] ∧
    (tick (List.replicate 14 0) (1 / 4) startState readFailInput).2.1
      = [TickEvent.inputPoll, TickEvent.imuRead, TickEvent.posRead] :=
  ⟨(C8_tick_order_amended (List.replicate 14 0) (1 / 4) startState okInput
      idleCtrl rfl rfl).1 (List.replicate 14 0) (List.replicate 14 0)
      (List.replicate 14 0) rfl rfl rfl rfl rfl,
   ((C8_tick_order_amended (List.replicate 14 0) (1 / 4) startState
      readFailInput idleCtrl rfl rfl).2.1 rfl).1⟩

/-- C9 counterexample: on a concrete tick whose position read fails, the
last-commands state is nevertheless changed — the input poll at the top of
the tick already stored the fresh controller commands. -/
theorem C9_counterexample :
    readFailCmdInput.posRead = none ∧
    (tick (List.replicate 14 0) (1 / 4) startState
        readFailCmdInput).1.lastCommands ≠ startState.lastCommands := by
  refine ⟨rfl, ?_⟩
  rw [show (tick (List.replicate 14 0) (1 / 4) startState
      readFailCmdInput).1.lastCommands = [(1 : ℚ), 0, 0, 0, 0, 0, 0] from rfl]
  rw [show startState.lastCommands = [(0 : ℚ), 0, 0, 0, 0, 0, 0] from rfl]
  simp

/-- C9 amended: on every running tick in which the position read, the
velocity read, or the inference call fails, no motor write is issued and
the action history, the motor-target state and the action filter are left
unchanged, while last-commands holds the commands polled at the top of the
tick; the loop continues (the tick yields a successor state). -/
theorem C9_transient_failure_amended (initPos : List ℚ) (actionScale : ℚ)
    (s : CtrlState) (inp : TickInput) (c : CtrlOutput)
    (hc : inp.controller = some c)
    (hp : (pollInput s c).paused = false)
    (hfail : readFails inp.posRead ∨ readFails inp.velRead ∨
      inp.inferResult = none) :
    (tick initPos actionScale s inp).2.2 = none ∧
    (tick initPos actionScale s inp).1.lastAction = s.lastAction ∧
    (tick initPos actionScale s inp).1.lastLastAction = s.lastLastAction ∧
    (tick initPos actionScale s inp).1.lastLastLastAction
      = s.lastLastLastAction ∧
    (tick initPos actionScale s inp).1.motorTargets = s.motorTargets ∧
    (tick initPos actionScale s inp).1.actionFilter = s.actionFilter ∧
    (tick initPos actionScale s inp).1.lastCommands = c.commands := by
  obtain ⟨f1, f2, f3, f4, f5, f6, f7⟩ := pollInput_fields s c
  cases hpos : inp.posRead with
  | none => simp [tick, hc, hp, hpos, f1, f2, f3, f4, f5, f6]
  | some pos =>
    by_cases hlp : pos.length = NUM_DOFS
    · cases hvel : inp.velRead with
      | none => simp [tick, hc, hp, hpos, hlp, hvel, f1, f2, f3, f4, f5, f6]
      | some vel =>
        by_cases hlv : vel.length = NUM_DOFS
        · cases hinf : inp.inferResult with
          | none =>
            simp [tick, hc, hp, hpos, hlp, hvel, hlv, hinf,
              f1, f2, f3, f4, f5, f6]
          | some action =>
            exfalso
            rcases hfail with hf | hf | hf
            · exact hf pos hpos hlp
            · exact hf vel hvel hlv
            · rw [hf] at hinf
              exact Option.noConfusion hinf
        · simp [tick, hc, hp, hpos, hlp, hvel, hlv,
            f1, f2, f3, f4, f5, f6]
    · simp [tick, hc, hp, hpos, hlp, f1, f2, f3, f4, f5, f6]

/-- C9 amended, witness: a concrete read-failing tick from the startup
state issues no write and leaves history, targets and filter unchanged. -/
theorem C9_transient_failure_amended_witness :
    (tick (List.replicate 14 0) (1 / 4) startState readFailInput).2.2
      = none ∧
    (tick (List.replicate 14 0) (1 / 4) startState
        readFailInput).1.lastAction = startState.lastAction ∧
    (tick (List.replicate 14 0) (1 / 4) startState
        readFailInput).1.lastLastAction = startState.lastLastAction ∧
    (tick (List.replicate 14 0) (1 / 4) startState
        readFailInput).1.lastLastLastAction
      = startState.lastLastLastAction ∧
    (tick (List.replicate 14 0) (1 / 4) startState
        readFailInput).1.motorTargets = startState.motorTargets ∧
    (tick (List.replicate 14 0) (1 / 4) startState
        readFailInput).1.actionFilter = startState.actionFilter ∧
    (tick (List.replicate 14 0) (1 / 4) startState
        readFailInput).1.lastCommands = idleCtrl.commands :=
  C9_transient_failure_amended (List.replicate 14 0) (1 / 4) startState
    readFailInput idleCtrl rfl rfl
    (Or.inl fun _v hv => Option.noConfusion hv)

end OpenDuck
